import Mathlib

/-!
Verification of the retrieval engine of `omni-channel-ai-servicing`
(document loader, embedding cache, FAISS vector store, retriever).

The Python sources under
`omni_channel_ai_servicing/infrastructure/retrieval/` are shallowly
embedded below: metadata dictionaries become association lists with
first-match lookup (a merge that overrides a key prepends the new
binding), floating-point vectors become lists of rationals, raised
exceptions become `Except`, and the FAISS ANN index is abstracted by
the ranked `(distance, id)` list its `search` call returns.
-/

namespace Retrieval

/-- A metadata value as it occurs in the chunk metadata dictionaries:
a string scalar, an integer scalar (`chunk_index`, `total_chunks`),
or a list of strings (`intents`, `keywords`, `compliance_tags`). -/
inductive MValue where
  | str (s : String)
  | num (n : Int)
  | list (vs : List String)
deriving DecidableEq

/-- A metadata dictionary.  First-match `List.lookup` gives Python
dict semantics provided overriding merges prepend their bindings. -/
abbrev Metadata := List (String × MValue)

/-- `Document` from `document_loader.py`: a chunk of text plus its
metadata dictionary. -/
structure Doc where
  page_content : String
  metadata : Metadata
deriving DecidableEq

/-! ## Document loader (`document_loader.py`) -/

/-- The chunk-assembly loop at the end of `load_document`: given the
merged `base_metadata` and the list of text chunks produced by the
splitter, build one `Document` per chunk whose metadata is the base
dictionary overridden with `chunk_index = i` and
`total_chunks = len(chunks)`. -/
def load_document_chunks (base : Metadata) (chunks : List String) : List Doc :=
  chunks.enum.map (fun ic =>
    { page_content := ic.2
      metadata :=
        ("chunk_index", MValue.num (Int.ofNat ic.1)) ::
        ("total_chunks", MValue.num (Int.ofNat chunks.length)) :: base })

/-- `load_all_documents`: iterates over the corpus files, calling
`load_document` on each and extending the accumulated list.  Each
element of `loads` is the outcome of one `load_document` call (`ok`
with the chunks, or `error` when the file cannot be read/decoded).
The source has no `try`/`except` around the loop, so a raised
per-document error propagates and aborts the whole batch. -/
def load_all_documents : List (Except String (List Doc)) → Except String (List Doc)
  | [] => .ok []
  | .error e :: _ => .error e
  | .ok ds :: rest =>
    match load_all_documents rest with
    | .error e => .error e
    | .ok tail => .ok (ds ++ tail)

/-! ## Vector store (`vector_store.py`) -/

/-- One key's match test in the metadata filter of
`similarity_search`: if the indexed value is a list, a list filter
value matches when some element is contained in it and a string
filter value matches by membership (Python `value in metadata[key]`);
otherwise the indexed scalar must equal the filter value exactly
(Python `metadata[key] != value` fails the match). -/
def keyMatch (mv fv : MValue) : Bool :=
  match mv with
  | .list vs =>
    match fv with
    | .list ws => ws.any (fun w => vs.contains w)
    | .str s => vs.contains s
    | .num _ => false
  | mv => mv == fv

/-- The per-entry filter loop of `similarity_search`: every filter
key must be present in the entry's metadata and satisfy `keyMatch`
(logical AND, early exit on first failure). -/
def matchesFilter (meta : Metadata) (filt : Metadata) : Bool :=
  filt.all (fun kv =>
    match meta.lookup kv.1 with
    | none => false
    | some mv => keyMatch mv kv.2)

/-- The result-collection loop of `similarity_search`: walk the
ranked `(distance, id)` pairs returned by the FAISS index, skip
missing results (FAISS pads with id `-1`; it never emits any other
negative or out-of-range id), drop entries failing the metadata
filter when one was requested, and stop once `need` results have
been collected (the source checks `len(results) >= k` after
appending). -/
def passesFilter (filt : Option Metadata) (meta : Metadata) : Bool :=
  match filt with
  | some f => matchesFilter meta f
  | none => true

def collectResults (docs : List Doc) (filt : Option Metadata) :
    Nat → List (ℚ × Int) → List (Doc × ℚ)
  | _, [] => []
  | need, (dist, idx) :: rest =>
    if idx < 0 then collectResults docs filt need rest
    else
      match docs.get? idx.toNat with
      | none => collectResults docs filt need rest
      | some doc =>
        if passesFilter filt doc.metadata then
          (doc, dist) :: (if need ≤ 1 then [] else collectResults docs filt (need - 1) rest)
        else collectResults docs filt need rest

/-- `similarity_search`: over-fetch `3 * k` ranked candidates from
the FAISS index when a filter is present (`k` otherwise), then
post-filter and truncate to `k`.  `hits` is the full ranking the
index would produce (`add_documents` keeps `self.metadata` as the
parallel list of each document's `metadata`, so the entry consulted
by the filter is the returned document's own metadata). -/
def similarity_search (docs : List Doc) (hits : List (ℚ × Int))
    (k : Nat) (filt : Option Metadata) : List (Doc × ℚ) :=
  let search_k := match filt with
    | some _ => k * 3
    | none => k
  collectResults docs filt k (hits.take search_k)

/-- The observable state of `FAISSVectorStore`: the parallel document
and metadata lists plus the number of vectors held by the FAISS
index (`index.ntotal`). -/
structure VectorStore where
  documents : List Doc
  metadata : List Metadata
  nvecs : Nat
deriving DecidableEq

/-- `add_documents`: raises (here: returns `.error`) when the
document and embedding counts differ — the length check precedes
every mutation, so a failing call leaves the store untouched —
otherwise appends documents, their metadata, and the normalized
embeddings in input order. -/
def add_documents (st : VectorStore) (docs : List Doc)
    (embs : List (List ℚ)) : Except String VectorStore :=
  if docs.length ≠ embs.length then
    .error ("Mismatch: " ++ toString docs.length ++ " documents but "
      ++ toString embs.length ++ " embeddings")
  else
    .ok { documents := st.documents ++ docs
          metadata := st.metadata ++ docs.map (fun d => d.metadata)
          nvecs := st.nvecs + embs.length }

/-! ### L2 normalization of stored vectors

`add_documents` runs `faiss.normalize_L2` on the embedding matrix
before `index.add`.  FAISS's `fvec_renorm_L2` computes the squared
norm `nr` of each row and divides by `sqrt(nr)` only when `nr > 0`,
leaving an all-zero row unchanged. -/

/-- Squared L2 norm of a vector. -/
def sumSq (v : List ℚ) : ℚ := (v.map (fun x => x * x)).sum

/-- Inner product of two vectors (FAISS `IndexFlatIP` score). -/
def dotList (u v : List ℚ) : ℚ := (List.zipWith (fun a b => a * b) u v).sum

/-- `w` is the result of `faiss.normalize_L2` on row `v`: either `v`
has squared norm `0` and is left unchanged, or `w` is `v` divided by
the positive square root `s` of its squared norm. -/
def NormalizesTo (v w : List ℚ) : Prop :=
  (sumSq v = 0 ∧ w = v) ∨
  ∃ s : ℚ, 0 < s ∧ s * s = sumSq v ∧ w = v.map (fun x => x / s)

/-- Vector-level transitions of `FAISSVectorStore`: `add_documents`
appends the normalized rows, `clear` resets the index, and a
`save` followed by `load` restores the identical vector list. -/
inductive VecStep : List (List ℚ) → List (List ℚ) → Prop where
  | add (vs embs ws : List (List ℚ)) :
      List.Forall₂ NormalizesTo embs ws → VecStep vs (vs ++ ws)
  | clear (vs : List (List ℚ)) : VecStep vs []
  | saveload (vs : List (List ℚ)) : VecStep vs vs

/-- Vector lists reachable from a freshly constructed (empty) store
by any sequence of `add_documents` / `clear` / `save` / `load`. -/
inductive ReachableVecs : List (List ℚ) → Prop where
  | init : ReachableVecs []
  | step {vs vs' : List (List ℚ)} :
      ReachableVecs vs → VecStep vs vs' → ReachableVecs vs'

/-- Reachability as above, restricted to runs in which every added
embedding is nonzero (nonzero squared norm). -/
inductive ReachableVecsNZ : List (List ℚ) → Prop where
  | init : ReachableVecsNZ []
  | add {vs : List (List ℚ)} (embs ws : List (List ℚ)) :
      ReachableVecsNZ vs → (∀ e ∈ embs, sumSq e ≠ 0) →
      List.Forall₂ NormalizesTo embs ws → ReachableVecsNZ (vs ++ ws)
  | clear {vs : List (List ℚ)} : ReachableVecsNZ vs → ReachableVecsNZ []
  | saveload {vs : List (List ℚ)} : ReachableVecsNZ vs → ReachableVecsNZ vs

/-! ## Embedding service (`embedding_service.py`)

The disk cache (one JSON file per SHA-256 key) is modelled by an
association list from cache key to vector; the hit/miss counters and
the number of provider calls (`embeddings.embed_query`) are carried
alongside.  `sha` abstracts `hashlib.sha256(...).hexdigest()` and
`provider` abstracts the (deterministic) embedding provider. -/

structure EmbState where
  cache : List (String × List ℚ)
  cache_hits : Nat
  cache_misses : Nat
  provider_calls : Nat
deriving DecidableEq

/-- A fresh `EmbeddingService` with an empty cache directory. -/
def initEmbState : EmbState :=
  { cache := [], cache_hits := 0, cache_misses := 0, provider_calls := 0 }

/-- `_load_from_cache`: look the key up; on a hit bump the hit
counter and return the stored vector, otherwise bump the miss
counter. -/
def load_from_cache (sha : String → String) (st : EmbState) (t : String) :
    Option (List ℚ) × EmbState :=
  match st.cache.lookup (sha t) with
  | some e => (some e, { st with cache_hits := st.cache_hits + 1 })
  | none => (none, { st with cache_misses := st.cache_misses + 1 })

/-- `_save_to_cache`: persist the embedding under the key (writing
the file overrides any previous content, hence the prepend). -/
def save_to_cache (sha : String → String) (st : EmbState) (t : String)
    (e : List ℚ) : EmbState :=
  { st with cache := (sha t, e) :: st.cache }

/-- `_generate_embedding`: one successful provider call. -/
def generate_embedding (provider : String → List ℚ) (st : EmbState)
    (t : String) : List ℚ × EmbState :=
  (provider t, { st with provider_calls := st.provider_calls + 1 })

/-- `embed_text`: consult the cache when `use_cache` is set, return
the hit directly, otherwise call the provider and persist the fresh
embedding. -/
def embed_text (sha : String → String) (provider : String → List ℚ)
    (st : EmbState) (t : String) (use_cache : Bool) : List ℚ × EmbState :=
  if use_cache then
    match load_from_cache sha st t with
    | (some cached, st1) => (cached, st1)
    | (none, st1) =>
      let r := generate_embedding provider st1 t
      (r.1, save_to_cache sha r.2 t r.1)
  else generate_embedding provider st t

/-! ## Retriever (`retriever.py`) -/

/-- `doc.metadata.get("intents", [])` as consulted by the boost test
of `_rerank_by_intent`. -/
def getIntents (meta : Metadata) : List String :=
  match meta.lookup "intents" with
  | some (.list vs) => vs
  | _ => []

/-- Descending stable insertion: the new pair goes in front of the
first entry with a score not above its own, so that among equal
scores the earlier element of the original list stays first —
Python's stable `list.sort(key=score, reverse=True)`. -/
def insertByScoreDesc (p : Doc × ℚ) : List (Doc × ℚ) → List (Doc × ℚ)
  | [] => [p]
  | q :: t => if q.2 ≤ p.2 then p :: q :: t else q :: insertByScoreDesc p t

/-- Stable sort by descending score. -/
def sortByScoreDesc : List (Doc × ℚ) → List (Doc × ℚ)
  | [] => []
  | p :: t => insertByScoreDesc p (sortByScoreDesc t)

/-- `_rerank_by_intent`: with no intent the results pass through
unchanged; otherwise each candidate whose `intents` metadata list
contains the intent string — exactly as passed, no case folding
here — has its score multiplied by `intent_boost`, and the list is
re-sorted by descending (possibly boosted) score. -/
def rerank_by_intent (boost : ℚ) (results : List (Doc × ℚ)) :
    Option String → List (Doc × ℚ)
  | none => results
  | some it =>
    sortByScoreDesc (results.map (fun p =>
      if it ∈ getIntents p.1.metadata then (p.1, p.2 * boost) else p))

/-- Python `str.upper()` (character-wise upper-casing), as applied
to the intent before it is used as a filter value. -/
def pyUpper (s : String) : String := String.mk (s.data.map Char.toUpper)

/-- The scored pipeline of `retrieve`: build the metadata filter
`\x7b"intents": [intent.upper()]\x7d` when an intent is given, ask the
vector store for `2 * k` candidates, drop those under the similarity
threshold, re-rank with the intent boost, and truncate to `k`.
`hits` abstracts the FAISS ranking for the embedded query. -/
def retrieveRanked (store : List Doc) (hits : List (ℚ × Int))
    (threshold : ℚ) (k : Nat) (boost : ℚ) (intent : Option String) :
    List (Doc × ℚ) :=
  let filt := intent.map (fun it => [("intents", MValue.list [pyUpper it])])
  let results := similarity_search store hits (k * 2) filt
  let surviving := results.filter (fun p => threshold ≤ p.2)
  (rerank_by_intent boost surviving intent).take k

/-- `retrieve` returns the documents only, scores stripped. -/
def retrieve (store : List Doc) (hits : List (ℚ × Int)) (threshold : ℚ)
    (k : Nat) (boost : ℚ) (intent : Option String) : List Doc :=
  (retrieveRanked store hits threshold k boost intent).map (fun p => p.1)

/-! ### Context formatting (`format_context`) -/

/-- Python `str(...)` of a metadata value, as interpolated into the
per-document header. -/
def mvalueStr : MValue → String
  | .str s => s
  | .num n => toString n
  | .list vs =>
    "[" ++ String.intercalate ", " (vs.map (fun v => "'" ++ v ++ "'")) ++ "]"

/-- `metadata.get(key, default)` rendered as a string. -/
def metaGetStr (meta : Metadata) (key dflt : String) : String :=
  match meta.lookup key with
  | some mv => mvalueStr mv
  | none => dflt

/-- The formatted block for the `i`-th document (1-based):
`[Document i - doc_id: title]\n` followed by the chunk content and a
newline. -/
def docBlock (i : Nat) (d : Doc) : String :=
  "[Document " ++ toString i ++ " - " ++ metaGetStr d.metadata "document_id" "UNKNOWN"
    ++ ": " ++ metaGetStr d.metadata "title" "Untitled" ++ "]\n"
    ++ d.page_content ++ "\n"

/-- The accumulation loop of `format_context`: starting at 1-based
position `i` with `cur` characters already accumulated, include each
document's block whole, and break out of the loop at the first block
that would push the accumulated length over `maxLen`. -/
def contextParts (maxLen : Nat) : Nat → Nat → List Doc → List String
  | _, _, [] => []
  | i, cur, d :: rest =>
    let t := docBlock i d
    if maxLen < cur + t.length then []
    else t :: contextParts maxLen (i + 1) (cur + t.length) rest

/-- `format_context`: the fixed string for an empty document list,
otherwise the fixed leading label followed by the included blocks
joined with horizontal rules. -/
def format_context (docs : List Doc) (maxLen : Nat) : String :=
  if docs.isEmpty then "No relevant context found."
  else
    "**Relevant Policy Context:**\n\n"
      ++ String.intercalate "\n---\n\n" (contextParts maxLen 1 0 docs)

/-- All formatted blocks of a document list, numbered from `i`. -/
def docBlocksFrom (i : Nat) (docs : List Doc) : List String :=
  (docs.enumFrom i).map (fun p => docBlock p.1 p.2)

/-- Total character count of a list of blocks. -/
def totalLen (parts : List String) : Nat := (parts.map String.length).sum

/-! ## Supporting lemmas -/

theorem sumSq_nil : sumSq [] = 0 := rfl

theorem sumSq_cons (x : ℚ) (t : List ℚ) : sumSq (x :: t) = x * x + sumSq t := by
  simp [sumSq]

theorem sumSq_nonneg (v : List ℚ) : 0 ≤ sumSq v := by
  induction v with
  | nil => simp [sumSq_nil]
  | cons x t ih => rw [sumSq_cons]; exact add_nonneg (mul_self_nonneg x) ih

theorem sumSq_map_div (v : List ℚ) (s : ℚ) (hs : s ≠ 0) :
    sumSq (v.map (fun x => x / s)) = sumSq v / (s * s) := by
  induction v with
  | nil => simp [sumSq_nil]
  | cons x t ih =>
    simp only [List.map_cons, sumSq_cons, ih]
    field_simp

theorem dotList_nil_left (v : List ℚ) : dotList [] v = 0 := rfl

theorem dotList_nil_right (u : List ℚ) : dotList u [] = 0 := by
  cases u <;> rfl

theorem dotList_cons (x y : ℚ) (u v : List ℚ) :
    dotList (x :: u) (y :: v) = x * y + dotList u v := by
  simp [dotList]

theorem two_mul_dotList_le (u : List ℚ) (a b : ℚ) :
    ∀ v : List ℚ, 2 * a * b * dotList u v ≤ a ^ 2 * sumSq v + b ^ 2 * sumSq u := by
  induction u with
  | nil =>
    intro v
    rw [dotList_nil_left]
    have h1 : 0 ≤ a ^ 2 * sumSq v := mul_nonneg (sq_nonneg a) (sumSq_nonneg v)
    have h2 : 0 ≤ b ^ 2 * sumSq [] := mul_nonneg (sq_nonneg b) (sumSq_nonneg [])
    nlinarith
  | cons x t ih =>
    intro v
    cases v with
    | nil =>
      rw [dotList_nil_right]
      have h1 : 0 ≤ a ^ 2 * sumSq ([] : List ℚ) := mul_nonneg (sq_nonneg a) (sumSq_nonneg [])
      have h2 : 0 ≤ b ^ 2 * sumSq (x :: t) := mul_nonneg (sq_nonneg b) (sumSq_nonneg _)
      nlinarith
    | cons y w =>
      rw [dotList_cons, sumSq_cons, sumSq_cons]
      have := ih w
      nlinarith [sq_nonneg (a * y - b * x)]

/-- Cauchy-Schwarz for list inner products (no length hypothesis:
`zipWith` truncates to the common prefix and the extra squared terms
are nonnegative). -/
theorem dotList_sq_le (u : List ℚ) : ∀ v : List ℚ,
    dotList u v ^ 2 ≤ sumSq u * sumSq v := by
  induction u with
  | nil =>
    intro v
    simp [dotList_nil_left, sumSq_nil]
  | cons x t ih =>
    intro v
    cases v with
    | nil =>
      simp [dotList_nil_right, sumSq_nil]
    | cons y w =>
      rw [dotList_cons, sumSq_cons, sumSq_cons]
      have h1 := ih w
      have h2 := two_mul_dotList_le t x y w
      have h3 : 0 ≤ sumSq t := sumSq_nonneg t
      have h4 : 0 ≤ sumSq w := sumSq_nonneg w
      nlinarith

theorem dotList_le_one (u v : List ℚ) (hu : sumSq u = 1) (hv : sumSq v = 1) :
    dotList u v ≤ 1 ∧ -1 ≤ dotList u v := by
  have h := dotList_sq_le u v
  rw [hu, hv] at h
  constructor
  · nlinarith [sq_nonneg (dotList u v - 1)]
  · nlinarith [sq_nonneg (dotList u v + 1)]

theorem insertByScoreDesc_perm (p : Doc × ℚ) (l : List (Doc × ℚ)) :
    List.Perm (insertByScoreDesc p l) (p :: l) := by
  induction l with
  | nil => exact List.Perm.refl _
  | cons q t ih =>
    by_cases h : q.2 ≤ p.2
    · simp [insertByScoreDesc, h]
    · simp only [insertByScoreDesc, if_neg h]
      exact (ih.cons q).trans (List.Perm.swap p q t)

theorem sortByScoreDesc_perm (l : List (Doc × ℚ)) :
    List.Perm (sortByScoreDesc l) l := by
  induction l with
  | nil => exact List.Perm.refl _
  | cons p t ih =>
    exact (insertByScoreDesc_perm p (sortByScoreDesc t)).trans (ih.cons p)

theorem insertByScoreDesc_pairwise (p : Doc × ℚ) (l : List (Doc × ℚ))
    (hl : l.Pairwise (fun a b => b.2 ≤ a.2)) :
    (insertByScoreDesc p l).Pairwise (fun a b => b.2 ≤ a.2) := by
  induction l with
  | nil => simp [insertByScoreDesc]
  | cons q t ih =>
    by_cases h : q.2 ≤ p.2
    · simp only [insertByScoreDesc, if_pos h]
      refine List.Pairwise.cons ?_ hl
      intro x hx
      rcases List.mem_cons.mp hx with rfl | hx
      · exact h
      · exact le_trans (List.rel_of_pairwise_cons hl hx) h
    · simp only [insertByScoreDesc, if_neg h]
      refine List.Pairwise.cons ?_ (ih hl.of_cons)
      intro x hx
      rcases List.mem_cons.mp ((insertByScoreDesc_perm p t).mem_iff.mp hx) with rfl | hx
      · exact le_of_lt (lt_of_not_le h)
      · exact List.rel_of_pairwise_cons hl hx

theorem sortByScoreDesc_pairwise (l : List (Doc × ℚ)) :
    (sortByScoreDesc l).Pairwise (fun a b => b.2 ≤ a.2) := by
  induction l with
  | nil => simp [sortByScoreDesc]
  | cons p t ih => exact insertByScoreDesc_pairwise p (sortByScoreDesc t) ih

/-- Everything the collection loop of `similarity_search` returns
passed the metadata filter. -/
theorem mem_collectResults_matches (docs : List Doc) (f : Metadata) :
    ∀ (hs : List (ℚ × Int)) (need : Nat) (p : Doc × ℚ),
      p ∈ collectResults docs (some f) need hs →
      matchesFilter p.1.metadata f = true := by
  intro hs
  induction hs with
  | nil => intro need p hp; simp [collectResults] at hp
  | cons h rest ih =>
    intro need p hp
    rw [collectResults] at hp
    split at hp
    next => exact ih need p hp
    next =>
      split at hp
      next => exact ih need p hp
      next doc _ =>
        split at hp
        next hm =>
          rcases List.mem_cons.mp hp with rfl | hp
          · exact hm
          · split at hp
            next => simp at hp
            next => exact ih (need - 1) p hp
        next => exact ih need p hp


/-- `List.Forall₂` relates every right element to some left one. -/
theorem forall₂_mem_right {R : List ℚ → List ℚ → Prop} :
    ∀ {as bs : List (List ℚ)}, List.Forall₂ R as bs → ∀ b ∈ bs, ∃ a ∈ as, R a b := by
  intro as bs h
  induction h with
  | nil => intro b hb; simp at hb
  | cons hr _ ih =>
    intro b hb
    rcases List.mem_cons.mp hb with rfl | hb
    · exact ⟨_, List.mem_cons_self _ _, hr⟩
    · rcases ih b hb with ⟨a, ha, har⟩
      exact ⟨a, List.mem_cons_of_mem _ ha, har⟩

/-- A vector produced by `faiss.normalize_L2` from a row of nonzero
squared norm has squared norm exactly 1. -/
theorem normalizesTo_unit (v w : List ℚ) (hnz : sumSq v ≠ 0)
    (h : NormalizesTo v w) : sumSq w = 1 := by
  rcases h with ⟨h0, _⟩ | ⟨s, hs, hss, hw⟩
  · exact absurd h0 hnz
  · subst hw
    rw [sumSq_map_div v s (ne_of_gt hs), ← hss]
    field_simp

/-- Every vector reachable through nonzero-embedding runs has unit
squared norm. -/
theorem reachableVecsNZ_unit (vs : List (List ℚ)) (h : ReachableVecsNZ vs) :
    ∀ w ∈ vs, sumSq w = 1 := by
  induction h with
  | init => intro w hw; simp at hw
  | add embs ws _ hnz hf ih =>
    intro w hw
    rcases List.mem_append.mp hw with hw | hw
    · exact ih w hw
    · rcases forall₂_mem_right hf w hw with ⟨e, he, hew⟩
      exact normalizesTo_unit e w (hnz e he) hew
  | clear _ _ => intro w hw; simp at hw
  | saveload _ ih => exact ih

theorem docBlocksFrom_cons (i : Nat) (d : Doc) (rest : List Doc) :
    docBlocksFrom i (d :: rest) = docBlock i d :: docBlocksFrom (i + 1) rest := by
  simp [docBlocksFrom, List.enumFrom]

/-- Structure of the `format_context` accumulation loop: the included
blocks are an initial segment of the formatted blocks, their total
length (on top of what was already accumulated) stays within the
budget, and when the loop stopped early the very next block would
have exceeded it. -/
theorem contextParts_spec (L : Nat) :
    ∀ (docs : List Doc) (i cur : Nat), cur ≤ L →
    ∃ m, m ≤ docs.length ∧
      contextParts L i cur docs = (docBlocksFrom i docs).take m ∧
      cur + totalLen ((docBlocksFrom i docs).take m) ≤ L ∧
      ∀ h : m < docs.length,
        L < cur + totalLen ((docBlocksFrom i docs).take m)
          + (docBlock (i + m) (docs.get ⟨m, h⟩)).length := by
  intro docs
  induction docs with
  | nil =>
    intro i cur hcur
    refine ⟨0, le_refl 0, rfl, ?_, ?_⟩
    · simpa [docBlocksFrom, totalLen] using hcur
    · intro h; simp at h
  | cons d rest ih =>
    intro i cur hcur
    rw [contextParts]
    split
    next hover =>
      refine ⟨0, Nat.zero_le _, rfl, ?_, ?_⟩
      · simpa [totalLen] using hcur
      · intro _
        simpa [totalLen] using hover
    next hfit =>
      have hcur' : cur + (docBlock i d).length ≤ L := le_of_not_lt hfit
      rcases ih (i + 1) (cur + (docBlock i d).length) hcur' with
        ⟨m, hm, heq, hlen, hov⟩
      refine ⟨m + 1, Nat.succ_le_succ hm, ?_, ?_, ?_⟩
      · rw [docBlocksFrom_cons, List.take_succ_cons, heq]
      · rw [docBlocksFrom_cons, List.take_succ_cons]
        simpa [totalLen, Nat.add_assoc] using hlen
      · intro h
        have h' : m < rest.length := Nat.lt_of_succ_lt_succ h
        have := hov h'
        rw [docBlocksFrom_cons, List.take_succ_cons]
        simpa [totalLen, Nat.add_assoc, Nat.add_comm 1 m, ← Nat.add_assoc i 1 m]
          using this

/-- The boolean `keyMatch` test coincides with the specified filter
semantics: a list-valued index entry matches when it shares an
element with the filter value (a scalar counting as a singleton),
and a scalar index entry matches only the identical filter value. -/
theorem keyMatch_spec (mv fv : MValue) :
    keyMatch mv fv = true ↔
      (match mv, fv with
       | .list vs, .list ws => ∃ w, w ∈ ws ∧ w ∈ vs
       | .list vs, .str s => s ∈ vs
       | .list _, .num _ => False
       | mv', fv' => mv' = fv') := by
  cases mv with
  | list vs => cases fv <;> simp [keyMatch]
  | str s => cases fv <;> simp [keyMatch]
  | num n => cases fv <;> simp [keyMatch]

theorem matchesFilter_spec (meta f : Metadata) (h : matchesFilter meta f = true) :
    ∀ kv ∈ f, ∃ mv, meta.lookup kv.1 = some mv ∧ keyMatch mv kv.2 = true := by
  intro kv hkv
  have := (List.all_eq_true.mp h) kv hkv
  cases hl : meta.lookup kv.1 with
  | none => rw [hl] at this; simp at this
  | some mv => rw [hl] at this; exact ⟨mv, rfl, this⟩

/-! ## Sample data for witnesses and counterexamples -/

/-- A policy chunk tagged with the `ADDRESS_UPDATE` intent. -/
def docPolicy : Doc :=
  { page_content := "Verify identity before updating an address."
    metadata := [("document_id", .str "POL-001"),
                 ("title", .str "Address Update Policy"),
                 ("document_type", .str "policy"),
                 ("intents", .list ["ADDRESS_UPDATE"])] }

/-- An FAQ chunk tagged with the `CARD_REPLACEMENT` intent. -/
def docFaq : Doc :=
  { page_content := "Replacement cards arrive in 7 days."
    metadata := [("document_id", .str "FAQ-001"),
                 ("title", .str "Card FAQ"),
                 ("document_type", .str "faq"),
                 ("intents", .list ["CARD_REPLACEMENT"])] }

/-- A chunk whose `intents` hold only the canonical uppercase tag. -/
def docUpperOnly : Doc :=
  { page_content := "Uppercase tag only."
    metadata := [("intents", .list ["A"])] }

/-- A chunk whose `intents` hold the uppercase tag and a lowercase
variant. -/
def docMixedCase : Doc :=
  { page_content := "Uppercase and lowercase tags."
    metadata := [("intents", .list ["A", "a"])] }

/-! ## Claims -/

/-- C1: for every query ranking, every `k`, and every filter, each
`(Document, score)` pair returned by `similarity_search` satisfies
every filter key (logical AND): a list-valued index entry shares at
least one element with the filter value/list, a scalar entry equals
the filter value exactly, and an entry with no stored value for a
filtered key is never returned. -/
theorem C1_similarity_search_filter_sound
    (docs : List Doc) (hits : List (ℚ × Int)) (k : Nat) (f : Metadata)
    (p : Doc × ℚ) (hp : p ∈ similarity_search docs hits k (some f)) :
    ∀ kv ∈ f, ∃ mv, p.1.metadata.lookup kv.1 = some mv ∧
      (match mv, kv.2 with
       | .list vs, .list ws => ∃ w, w ∈ ws ∧ w ∈ vs
       | .list vs, .str s => s ∈ vs
       | .list _, .num _ => False
       | mv', fv' => mv' = fv') := by
  intro kv hkv
  have hp' : p ∈ collectResults docs (some f) k (hits.take (k * 3)) := hp
  have hm := mem_collectResults_matches docs f (hits.take (k * 3)) k p hp'
  rcases matchesFilter_spec p.1.metadata f hm kv hkv with ⟨mv, hl, hk⟩
  exact ⟨mv, hl, (keyMatch_spec mv kv.2).mp hk⟩

/-- Witness for C1 at a concrete store, ranking and filter. -/
theorem C1_witness : ∃ mv,
    docPolicy.metadata.lookup "intents" = some mv ∧
    (match mv, MValue.list ["ADDRESS_UPDATE"] with
     | .list vs, .list ws => ∃ w, w ∈ ws ∧ w ∈ vs
     | .list vs, .str s => s ∈ vs
     | .list _, .num _ => False
     | mv', fv' => mv' = fv') :=
  C1_similarity_search_filter_sound [docPolicy, docFaq] [(1, 0), (1, 1)] 5
    [("intents", MValue.list ["ADDRESS_UPDATE"])] (docPolicy, 1)
    (by decide) ("intents", MValue.list ["ADDRESS_UPDATE"]) (by decide)

/-- C3 (claim is the intended design; the code diverges): a failed
`load_document` aborts `load_all_documents` entirely — the error is
propagated to the batch caller and the chunks of the other readable
documents are not returned, where the claim (and §7 of the spec)
requires skip-and-continue. -/
theorem C3_load_all_documents_aborts :
    load_all_documents
        [.ok [docPolicy], .error "LoadError: faqs/broken.md", .ok [docFaq]]
      = .error "LoadError: faqs/broken.md" ∧
    load_all_documents
        [.ok [docPolicy], .error "LoadError: faqs/broken.md", .ok [docFaq]]
      ≠ .ok [docPolicy, docFaq] := by
  refine ⟨rfl, ?_⟩
  intro h
  simp [load_all_documents] at h

/-- C5: starting from a fresh service, two `embed_text t` calls with
`use_cache = true` return the same vector, persist it under the hash
of `t`, and leave hit count 1, miss count 1 and exactly one provider
call. -/
theorem C5_embed_text_cache_idempotent (sha : String → String)
    (provider : String → List ℚ) (t : String) :
    (embed_text sha provider initEmbState t true).1
        = (embed_text sha provider
            (embed_text sha provider initEmbState t true).2 t true).1 ∧
    (embed_text sha provider initEmbState t true).2.cache.lookup (sha t)
        = some (embed_text sha provider initEmbState t true).1 ∧
    (embed_text sha provider
        (embed_text sha provider initEmbState t true).2 t true).2.cache_hits = 1 ∧
    (embed_text sha provider
        (embed_text sha provider initEmbState t true).2 t true).2.cache_misses = 1 ∧
    (embed_text sha provider
        (embed_text sha provider initEmbState t true).2 t true).2.provider_calls = 1 := by
  simp [embed_text, load_from_cache, save_to_cache, generate_embedding,
    initEmbState, List.lookup]

/-- C8: `add_documents` fails exactly when the document and embedding
counts differ; the check precedes any mutation (nothing is appended
on failure), and on success all pairs are appended in input order. -/
theorem C8_add_documents_iff (st : VectorStore) (docs : List Doc)
    (embs : List (List ℚ)) :
    (docs.length = embs.length →
      add_documents st docs embs = Except.ok
        { documents := st.documents ++ docs
          metadata := st.metadata ++ docs.map (fun d => d.metadata)
          nvecs := st.nvecs + embs.length }) ∧
    (docs.length ≠ embs.length →
      add_documents st docs embs = Except.error
        ("Mismatch: " ++ toString docs.length ++ " documents but "
          ++ toString embs.length ++ " embeddings")) := by
  constructor <;> intro h <;> simp [add_documents, h]

/-- Witness for C8: one successful and one failing insertion. -/
theorem C8_witness :
    add_documents { documents := [], metadata := [], nvecs := 0 }
        [docPolicy] [[1, 0]]
      = Except.ok { documents := [docPolicy], metadata := [docPolicy.metadata], nvecs := 1 } ∧
    add_documents { documents := [], metadata := [], nvecs := 0 }
        [docPolicy] []
      = Except.error "Mismatch: 1 documents but 0 embeddings" :=
  ⟨(C8_add_documents_iff { documents := [], metadata := [], nvecs := 0 }
      [docPolicy] [[1, 0]]).1 rfl,
   (C8_add_documents_iff { documents := [], metadata := [], nvecs := 0 }
      [docPolicy] []).2 (by decide)⟩

/-- C9: the chunks returned for one document carry `chunk_index`
values `0, 1, ..., N-1` in order and every chunk's `total_chunks`
equals `N`, the number of chunks the splitter produced (and
`load_all_documents` only concatenates such per-document lists). -/
theorem C9_chunk_index_invariant (base : Metadata) (chunks : List String) :
    (load_document_chunks base chunks).length = chunks.length ∧
    ∀ i (h : i < (load_document_chunks base chunks).length),
      ((load_document_chunks base chunks).get ⟨i, h⟩).metadata.lookup "chunk_index"
          = some (.num (Int.ofNat i)) ∧
      ((load_document_chunks base chunks).get ⟨i, h⟩).metadata.lookup "total_chunks"
          = some (.num (Int.ofNat chunks.length)) := by
  constructor
  · simp [load_document_chunks]
  · intro i h
    constructor <;> simp [load_document_chunks, List.lookup]

/-- Witness for C9 on a concrete two-chunk document. -/
theorem C9_witness :
    ((load_document_chunks [] ["alpha", "beta"]).get
        ⟨1, by decide⟩).metadata.lookup "chunk_index" = some (.num 1) ∧
    ((load_document_chunks [] ["alpha", "beta"]).get
        ⟨1, by decide⟩).metadata.lookup "total_chunks" = some (.num 2) :=
  (C9_chunk_index_invariant [] ["alpha", "beta"]).2 1 (by decide)

/-- C6: `format_context` includes whole formatted blocks greedily
left-to-right: the included blocks are an initial segment of the
per-document blocks, their total length never exceeds `max_length`,
the first block that would overflow is dropped entirely and stops
the iteration (so no later document is included), and the returned
string is the fixed label followed by exactly those blocks. -/
theorem C6_format_context_greedy (docs : List Doc) (L : Nat) :
    ∃ m, m ≤ docs.length ∧
      contextParts L 1 0 docs = (docBlocksFrom 1 docs).take m ∧
      totalLen ((docBlocksFrom 1 docs).take m) ≤ L ∧
      (∀ h : m < docs.length,
        L < totalLen ((docBlocksFrom 1 docs).take m)
          + (docBlock (1 + m) (docs.get ⟨m, h⟩)).length) ∧
      (docs ≠ [] →
        format_context docs L = "**Relevant Policy Context:**\n\n"
          ++ String.intercalate "\n---\n\n" ((docBlocksFrom 1 docs).take m)) := by
  rcases contextParts_spec L docs 1 0 (Nat.zero_le L) with ⟨m, hm, heq, hlen, hov⟩
  refine ⟨m, hm, heq, by simpa using hlen, by simpa using hov, ?_⟩
  intro hne
  rw [format_context, if_neg (by simpa using hne), heq]

/-- Witness for C6 on a concrete document list and budget. -/
theorem C6_witness :
    ∃ m, m ≤ ([docPolicy, docFaq] : List Doc).length ∧
      contextParts 100 1 0 [docPolicy, docFaq]
          = (docBlocksFrom 1 [docPolicy, docFaq]).take m ∧
      totalLen ((docBlocksFrom 1 [docPolicy, docFaq]).take m) ≤ 100 ∧
      (∀ h : m < ([docPolicy, docFaq] : List Doc).length,
        100 < totalLen ((docBlocksFrom 1 [docPolicy, docFaq]).take m)
          + (docBlock (1 + m) (([docPolicy, docFaq] : List Doc).get ⟨m, h⟩)).length) ∧
      (([docPolicy, docFaq] : List Doc) ≠ [] →
        format_context [docPolicy, docFaq] 100 = "**Relevant Policy Context:**\n\n"
          ++ String.intercalate "\n---\n\n"
              ((docBlocksFrom 1 [docPolicy, docFaq]).take m)) :=
  C6_format_context_greedy [docPolicy, docFaq] 100

/-- C10: on a non-empty list whose first formatted block alone
exceeds the budget, `format_context` returns just the fixed leading
label with an empty body — not the empty-input string "No relevant
context found." and no document content. -/
theorem C10_first_block_overflow (d : Doc) (rest : List Doc) (L : Nat)
    (h : L < (docBlock 1 d).length) :
    format_context (d :: rest) L = "**Relevant Policy Context:**\n\n" ∧
    format_context (d :: rest) L ≠ "No relevant context found." := by
  have hparts : contextParts L 1 0 (d :: rest) = [] := by
    rw [contextParts]
    simp [h]
  have hfmt : format_context (d :: rest) L = "**Relevant Policy Context:**\n\n" := by
    rw [format_context, if_neg (by simp), hparts]
    rfl
  refine ⟨hfmt, ?_⟩
  rw [hfmt]
  decide

/-- Witness for C10: a tight budget of 3 characters. -/
theorem C10_witness :
    format_context [docPolicy, docFaq] 3 = "**Relevant Policy Context:**\n\n" ∧
    format_context [docPolicy, docFaq] 3 ≠ "No relevant context found." :=
  C10_first_block_overflow docPolicy [docFaq] 3 (by decide)

/-- C2 counterexample: the claim requires case-insensitive intent
matching in the re-rank, but `_rerank_by_intent` tests membership of
the intent string exactly as passed.  With intent
`"address_update"`, a candidate tagged `["ADDRESS_UPDATE"]` passes
the (upper-cased) retrieval filter yet keeps its raw score `1`
instead of the boosted `1 * 2`. -/
theorem C2_case_insensitive_cex :
    retrieveRanked [docPolicy] [(1, 0)] 0 5 2 (some "address_update")
      = [(docPolicy, 1)] ∧
    pyUpper "address_update" = "ADDRESS_UPDATE" ∧
    "ADDRESS_UPDATE" ∈ getIntents docPolicy.metadata ∧
    "address_update" ∉ getIntents docPolicy.metadata ∧
    (1 : ℚ) * 2 ≠ 1 := by
  refine ⟨by decide, by decide, by decide, by decide, ?_⟩
  norm_num

/-- C2 amended: during re-ranking, every candidate whose metadata
`intents` list contains the requested intent string under exact
(case-sensitive) comparison has its score multiplied by
`intent_boost`, and every other candidate keeps its raw score. -/
theorem C2_rerank_boost_exact_match (it : String) (boost : ℚ)
    (results : List (Doc × ℚ)) (p : Doc × ℚ) (hp : p ∈ results) :
    (it ∈ getIntents p.1.metadata →
      (p.1, p.2 * boost) ∈ rerank_by_intent boost results (some it)) ∧
    (it ∉ getIntents p.1.metadata →
      p ∈ rerank_by_intent boost results (some it)) := by
  have hperm := sortByScoreDesc_perm (results.map (fun q =>
    if it ∈ getIntents q.1.metadata then (q.1, q.2 * boost) else q))
  constructor <;> intro hm
  · refine hperm.mem_iff.mpr (List.mem_map.mpr ⟨p, hp, ?_⟩)
    rw [if_pos hm]
  · refine hperm.mem_iff.mpr (List.mem_map.mpr ⟨p, hp, ?_⟩)
    rw [if_neg hm]

/-- Witness for C2 amended: one boosted and one untouched candidate. -/
theorem C2_witness :
    ((docMixedCase, (1 : ℚ) * 2)
        ∈ rerank_by_intent 2 [(docUpperOnly, 2), (docMixedCase, 1)] (some "a")) ∧
    ((docUpperOnly, (2 : ℚ))
        ∈ rerank_by_intent 2 [(docUpperOnly, 2), (docMixedCase, 1)] (some "a")) :=
  ⟨(C2_rerank_boost_exact_match "a" 2 [(docUpperOnly, 2), (docMixedCase, 1)]
      (docMixedCase, 1) (by decide)).1 (by decide),
   (C2_rerank_boost_exact_match "a" 2 [(docUpperOnly, 2), (docMixedCase, 1)]
      (docUpperOnly, 2) (by decide)).2 (by decide)⟩

/-- C7 counterexample: with boost factor `2 > 1` and two surviving
candidates of equal raw score `0` (admitted by a similarity
threshold of `0`), the boosted score `0 * 2` ties with the raw `0`,
and the stable descending re-sort keeps the non-matching candidate
(earlier in the original order) ranked above the matching one. -/
theorem C7_tie_rank_cex :
    rerank_by_intent 2 [(docUpperOnly, 0), (docMixedCase, 0)] (some "a")
      = [(docUpperOnly, 0), (docMixedCase, 0)] ∧
    "a" ∈ getIntents docMixedCase.metadata ∧
    "a" ∉ getIntents docUpperOnly.metadata ∧
    (1 : ℚ) < 2 := by
  refine ⟨?_, by decide, by decide, by norm_num⟩
  norm_num [rerank_by_intent, sortByScoreDesc, insertByScoreDesc, getIntents,
    docUpperOnly, docMixedCase, List.lookup]

/-- C7 amended: with boost factor above 1, among surviving candidates
of equal positive raw score the intent-matching candidate (boosted to
`s * boost`) always ranks strictly above a non-matching one (kept at
`s`) after the descending re-sort. -/
theorem C7_boosted_ranks_above (it : String) (boost : ℚ)
    (results : List (Doc × ℚ)) (dM dN : Doc) (s : ℚ) (i j : Nat)
    (hb : 1 < boost) (hs : 0 < s)
    (hm : it ∈ getIntents dM.metadata) (hn : it ∉ getIntents dN.metadata)
    (hi : i < (rerank_by_intent boost results (some it)).length)
    (hj : j < (rerank_by_intent boost results (some it)).length)
    (hgi : (rerank_by_intent boost results (some it)).get ⟨i, hi⟩ = (dM, s * boost))
    (hgj : (rerank_by_intent boost results (some it)).get ⟨j, hj⟩ = (dN, s)) :
    i < j := by
  have hsorted : (rerank_by_intent boost results (some it)).Pairwise
      (fun a b => b.2 ≤ a.2) := sortByScoreDesc_pairwise _
  have hlt : s < s * boost := by nlinarith
  rcases lt_trichotomy i j with h | h | h
  · exact h
  · exfalso
    subst h
    have hij : (⟨i, hi⟩ : Fin (rerank_by_intent boost results (some it)).length)
        = ⟨i, hj⟩ := rfl
    rw [hij, hgj] at hgi
    have := congrArg Prod.snd hgi
    simp only at this
    exact absurd this (ne_of_lt hlt)
  · exfalso
    have := (List.pairwise_iff_get.mp hsorted) ⟨j, hj⟩ ⟨i, hi⟩ h
    rw [hgi, hgj] at this
    exact absurd this (not_le.mpr hlt)

/-- Witness for C7 amended on a concrete re-ranked list. -/
theorem C7_witness : (0 : Nat) < 1 :=
  C7_boosted_ranks_above "a" 2 [(docUpperOnly, 1), (docMixedCase, 1)]
    docMixedCase docUpperOnly 1 0 1
    (by norm_num) (by norm_num) (by decide) (by decide)
    (by simp +decide [rerank_by_intent, sortByScoreDesc, insertByScoreDesc,
      getIntents, docUpperOnly, docMixedCase, List.lookup])
    (by simp +decide [rerank_by_intent, sortByScoreDesc, insertByScoreDesc,
      getIntents, docUpperOnly, docMixedCase, List.lookup])
    (by simp +decide [rerank_by_intent, sortByScoreDesc, insertByScoreDesc,
      getIntents, docUpperOnly, docMixedCase, List.lookup])
    (by simp +decide [rerank_by_intent, sortByScoreDesc, insertByScoreDesc,
      getIntents, docUpperOnly, docMixedCase, List.lookup])

/-- C4 counterexample: `faiss.normalize_L2` leaves an all-zero row
unchanged (its `fvec_renorm_L2` divides only when the squared norm
is positive), so adding a zero embedding stores a vector of norm 0,
not 1: the store holding only the zero vector is reachable while
violating the unconditional normalization invariant. -/
theorem C4_zero_vector_cex :
    ReachableVecs [[0, 0]] ∧ sumSq [0, 0] ≠ 1 := by
  constructor
  · have hstep : VecStep [] ([] ++ [[0, 0]]) :=
      VecStep.add [] [[0, 0]] [[0, 0]]
        (List.Forall₂.cons (Or.inl ⟨by simp [sumSq], rfl⟩) List.Forall₂.nil)
    exact ReachableVecs.step ReachableVecs.init (by simpa using hstep)
  · simp [sumSq]

/-- C4 amended: across every sequence of `add_documents` / `clear` /
`save` / `load` in which each added embedding is nonzero, every
stored vector has squared L2 norm exactly 1, and consequently the
inner-product score against any unit query vector lies in `[-1, 1]`
(inner product equals cosine similarity). -/
theorem C4_unit_norm_invariant (vs : List (List ℚ)) (h : ReachableVecsNZ vs) :
    (∀ w ∈ vs, sumSq w = 1) ∧
    (∀ w ∈ vs, ∀ q : List ℚ, sumSq q = 1 →
      dotList q w ≤ 1 ∧ -1 ≤ dotList q w) := by
  have hunit := reachableVecsNZ_unit vs h
  refine ⟨hunit, ?_⟩
  intro w hw q hq
  exact dotList_le_one q w hq (hunit w hw)

/-- Witness for C4 amended: the unit vector stored for the nonzero
embedding `[1, 0]`. -/
theorem C4_witness :
    sumSq [(1 : ℚ), 0] = 1 ∧
    dotList [(1 : ℚ), 0] [(1 : ℚ), 0] ≤ 1 := by
  have hreach : ReachableVecsNZ [[(1 : ℚ), 0]] := by
    have hadd := @ReachableVecsNZ.add [] [[(1 : ℚ), 0]] [[(1 : ℚ), 0]]
      ReachableVecsNZ.init
      (by
        intro e he
        rw [List.mem_singleton] at he
        subst he
        simp [sumSq])
      (List.Forall₂.cons
        (Or.inr ⟨1, one_pos, by simp [sumSq], by simp⟩) List.Forall₂.nil)
    simpa using hadd
  have h := C4_unit_norm_invariant [[(1 : ℚ), 0]] hreach
  exact ⟨h.1 [(1 : ℚ), 0] (by simp),
    (h.2 [(1 : ℚ), 0] (by simp) [(1 : ℚ), 0] (h.1 [(1 : ℚ), 0] (by simp))).1⟩

end Retrieval
